import Mathlib

/-!
Shallow embedding of the ChatSystem-BoostAsio repository
(`include/common.hpp` and `src/server.cpp`): the message codec
(`Message::encode_header` / `Message::decode_header`), the room registry
(`ChatRoom::join` / `ChatRoom::leave` / `ChatRoom::deliver`), the server-side
message transform (`ChatSession::do_read_body`), and the single-writer
outbound-queue discipline (`ChatSession::deliver` / `ChatSession::do_write`).

Bytes of the `char data[...]` buffer are modelled as `Nat` (ASCII codes);
`size_t` arithmetic is modelled as `Nat` with explicit reduction modulo
`2 ^ 64` where the C++ code converts a (possibly negative) `int` to `size_t`.
-/

namespace ChatSystem

/-- Constant `Message::HEADER_SIZE` (common.hpp). -/
def HEADER_SIZE : Nat := 4

/-- Constant `Message::MAX_BODY_SIZE` (common.hpp). -/
def MAX_BODY_SIZE : Nat := 512

/-- Width of `size_t` on the modelled platform (LP64). -/
def SIZE_T_BITS : Nat := 64

/-- The `Message` struct (common.hpp): the `data` buffer (header bytes followed
by body bytes) and the `body_length` field.  We model `data` as the list of
byte values of the buffer. -/
structure Message where
  data : List Nat
  body_length : Nat
deriving DecidableEq, Repr

/-- Accessor `Message::body()`: the body region of the buffer, i.e. the bytes after the
4-byte header, of which `body_length` are meaningful. -/
def Message.body (m : Message) : List Nat :=
  (m.data.drop HEADER_SIZE).take m.body_length

/-- Accessor `Message::length()`: total frame length. -/
def Message.len (m : Message) : Nat := HEADER_SIZE + m.body_length

/-- Decimal ASCII digits of `n`, most significant first (the digit sequence
`printf` emits for a non-negative value). -/
def natDigits (n : Nat) : List Nat :=
  if h : n < 10 then [48 + n]
  else natDigits (n / 10) ++ [48 + n % 10]
termination_by n
decreasing_by exact Nat.div_lt_self (by omega) (by omega)

/-- Model of `sprintf(header, "%4d", n)` for the non-negative values the code
passes: decimal digits right-justified in a minimum field width of 4, padded
on the left with spaces (ASCII 32), no sign.  (For `n ≥ 10000` the field
grows beyond 4 characters, just as `sprintf` would emit more characters.) -/
def sprintf4d (n : Nat) : List Nat :=
  List.replicate (HEADER_SIZE - (natDigits n).length) 32 ++ natDigits n

/-- Method `Message::encode_header()` (common.hpp lines 32-36): format `body_length`
with `"%4d"` and `memcpy` the first `HEADER_SIZE` bytes of the result over the
start of `data`.  The body region of `data` is untouched. -/
def Message.encode_header (m : Message) : Message :=
  { m with data := (sprintf4d m.body_length).take HEADER_SIZE ++ m.data.drop HEADER_SIZE }

/-- Predicate `isspace` for the C locale (space, \t, \n, \v, \f, \r). -/
def isSpaceB (c : Nat) : Bool := c = 32 || (9 ≤ c && c ≤ 13)

/-- ASCII decimal digit test. -/
def isDigitB (c : Nat) : Bool := 48 ≤ c && c ≤ 57

/-- Model of `atoi`'s leading-whitespace skip. -/
def skipSpaces : List Nat → List Nat
  | [] => []
  | c :: r => if isSpaceB c then skipSpaces r else c :: r

/-- Model of `atoi`'s digit-run accumulation: consume leading decimal digits, stop at
the first non-digit. -/
def digitsValAux (acc : Nat) : List Nat → Nat
  | [] => acc
  | c :: r => if isDigitB c then digitsValAux (acc * 10 + (c - 48)) r else acc

/-- The sign-and-digits phase of `atoi`, after whitespace has been skipped:
an optional leading `+` (ASCII 43) or `-` (ASCII 45), then a digit run. -/
def atoiSigned : List Nat → Int
  | [] => 0
  | c :: r =>
    if c = 43 then (digitsValAux 0 r : Int)
    else if c = 45 then -((digitsValAux 0 r : Int))
    else (digitsValAux 0 (c :: r) : Int)

/-- Model of C `atoi`: skip whitespace, parse an optional sign and a run of
decimal digits; an empty digit run yields 0.  (On the at-most-4-character
strings the code passes, no overflow can occur.) -/
def atoi (s : List Nat) : Int := atoiSigned (skipSpaces s)

/-- The null-terminated string `strncat(header, data, HEADER_SIZE)` builds in
`Message::decode_header` (common.hpp lines 40-41): at most `HEADER_SIZE` bytes
of `data`, stopping early at a NUL byte. -/
def headerField (m : Message) : List Nat :=
  (m.data.take HEADER_SIZE).takeWhile (fun c => c != 0)

/-- Method `Message::decode_header()` (common.hpp lines 39-44):
`body_length = std::atoi(header)` converts the `int` result to `size_t`
(reduction modulo `2 ^ 64`, so a negative parse wraps to a huge value), and
the function returns `body_length <= MAX_BODY_SIZE`. -/
def Message.decode_header (m : Message) : Message × Bool :=
  let bl : Nat := ((atoi (headerField m)) % ((2 : Int) ^ SIZE_T_BITS)).toNat
  ({ m with body_length := bl }, decide (bl ≤ MAX_BODY_SIZE))

/-- The frame a sender holds just before calling `encode_header`: the body
bytes copied at `data + HEADER_SIZE` and `body_length` set to the body's
length (the header region is still unwritten; we model it as zeros). -/
def mkFrame (body : List Nat) : Message :=
  { data := List.replicate HEADER_SIZE 0 ++ body, body_length := body.length }

/-! ### Arithmetic facts about the decimal digit printer and `atoi` -/

theorem natDigits_ne_nil (n : Nat) : natDigits n ≠ [] := by
  unfold natDigits
  split
  · simp
  · simp

theorem natDigits_digits (n : Nat) : ∀ c ∈ natDigits n, 48 ≤ c ∧ c ≤ 57 := by
  induction n using Nat.strong_induction_on with
  | _ n ih =>
    unfold natDigits
    split
    · intro c hc
      simp at hc
      omega
    · intro c hc
      simp at hc
      rcases hc with hc | hc
      · exact ih (n / 10) (Nat.div_lt_self (by omega) (by omega)) c hc
      · have : n % 10 < 10 := Nat.mod_lt _ (by omega)
        omega

theorem digitsValAux_append_digits (l1 l2 : List Nat)
    (h : ∀ c ∈ l1, isDigitB c = true) (acc : Nat) :
    digitsValAux acc (l1 ++ l2) = digitsValAux (digitsValAux acc l1) l2 := by
  induction l1 generalizing acc with
  | nil => simp [digitsValAux]
  | cons c r ih =>
    have hc : isDigitB c = true := h c (by simp)
    simp [digitsValAux, hc]
    exact ih (fun d hd => h d (by simp [hd])) _

theorem digitsValAux_natDigits (n : Nat) :
    ∀ acc, digitsValAux acc (natDigits n) = acc * 10 ^ (natDigits n).length + n := by
  induction n using Nat.strong_induction_on with
  | _ n ih =>
    intro acc
    unfold natDigits
    split
    · have hd : isDigitB (48 + n) = true := by simp [isDigitB]; omega
      simp [digitsValAux, hd]
    · have hlt : n / 10 < n := Nat.div_lt_self (by omega) (by omega)
      have hall : ∀ c ∈ natDigits (n / 10), isDigitB c = true := by
        intro c hc
        have := natDigits_digits (n / 10) c hc
        simp [isDigitB]
        omega
      rw [digitsValAux_append_digits _ _ hall, ih (n / 10) hlt acc]
      have hd : isDigitB (48 + n % 10) = true := by
        have : n % 10 < 10 := Nat.mod_lt _ (by omega)
        simp [isDigitB]
        omega
      have hlen : (natDigits (n / 10) ++ [48 + n % 10]).length
          = (natDigits (n / 10)).length + 1 := by simp
      rw [hlen, pow_succ, ← mul_assoc]
      simp [digitsValAux, hd]
      generalize acc * 10 ^ (natDigits (n / 10)).length = X
      omega

theorem digitsVal_natDigits (n : Nat) : digitsValAux 0 (natDigits n) = n := by
  have := digitsValAux_natDigits n 0
  simpa using this

theorem natDigits_length_le (k : Nat) (n : Nat) (hk : 1 ≤ k) (h : n < 10 ^ k) :
    (natDigits n).length ≤ k := by
  induction k generalizing n with
  | zero => omega
  | succ k ih =>
    unfold natDigits
    split
    · simp
    · have hk' : 1 ≤ k := by
        by_contra hc
        have : k = 0 := by omega
        subst this
        simp at h
        omega
      have hdiv : n / 10 < 10 ^ k := by
        apply Nat.div_lt_of_lt_mul
        rw [← pow_succ']
        exact h
      simp [List.length_append]
      have := ih (n / 10) hk' hdiv
      omega

/-! ### The encoded header: shape, and how `atoi` reads it back -/

theorem sprintf4d_length (n : Nat) (h : n ≤ 9999) :
    (sprintf4d n).length = HEADER_SIZE := by
  have h4 : n < 10 ^ 4 := by norm_num; omega
  have hle : (natDigits n).length ≤ 4 := natDigits_length_le 4 n (by omega) h4
  simp [sprintf4d, List.length_append, List.length_replicate, HEADER_SIZE]
  omega

theorem sprintf4d_bytes (n : Nat) :
    ∀ c ∈ sprintf4d n, c = 32 ∨ (48 ≤ c ∧ c ≤ 57) := by
  intro c hc
  simp only [sprintf4d, List.mem_append, List.mem_replicate] at hc
  rcases hc with hc | hc
  · exact Or.inl hc.2
  · exact Or.inr (natDigits_digits n c hc)

theorem skipSpaces_append_replicate (k : Nat) (l : List Nat) :
    skipSpaces (List.replicate k 32 ++ l) = skipSpaces l := by
  induction k with
  | zero => simp
  | succ k ih =>
    rw [List.replicate_succ, List.cons_append]
    simp [skipSpaces, isSpaceB, ih]

theorem skipSpaces_cons_of_digit (c : Nat) (r : List Nat) (h : 48 ≤ c ∧ c ≤ 57) :
    skipSpaces (c :: r) = c :: r := by
  have hs : isSpaceB c = false := by simp [isSpaceB]; omega
  simp [skipSpaces, hs]

theorem atoi_sprintf4d (n : Nat) (h : n ≤ 9999) : atoi (sprintf4d n) = n := by
  unfold atoi sprintf4d
  rw [skipSpaces_append_replicate]
  obtain ⟨c, r, hcr⟩ : ∃ c r, natDigits n = c :: r := by
    cases hnd : natDigits n with
    | nil => exact absurd hnd (natDigits_ne_nil n)
    | cons c r => exact ⟨c, r, rfl⟩
  rw [hcr]
  have hdig : 48 ≤ c ∧ c ≤ 57 := natDigits_digits n c (by rw [hcr]; simp)
  rw [skipSpaces_cons_of_digit c r hdig]
  have h43 : ¬c = 43 := by omega
  have h45 : ¬c = 45 := by omega
  simp only [atoiSigned, h43, h45, if_false]
  rw [← hcr, digitsVal_natDigits]

theorem encode_data_take (m : Message) (h : m.body_length ≤ 9999) :
    m.encode_header.data.take HEADER_SIZE = sprintf4d m.body_length := by
  unfold Message.encode_header
  have hlen4 : (sprintf4d m.body_length).length = HEADER_SIZE := sprintf4d_length _ h
  simp only
  rw [List.take_of_length_le (le_of_eq hlen4), List.take_left' hlen4]

theorem encode_data_drop (m : Message) (h : m.body_length ≤ 9999) :
    m.encode_header.data.drop HEADER_SIZE = m.data.drop HEADER_SIZE := by
  unfold Message.encode_header
  have hlen4 : ((sprintf4d m.body_length).take HEADER_SIZE).length = HEADER_SIZE := by
    rw [List.take_of_length_le (le_of_eq (sprintf4d_length _ h))]
    exact sprintf4d_length _ h
  simp only
  rw [List.drop_left' hlen4]

theorem takeWhile_sprintf4d (n : Nat) :
    (sprintf4d n).takeWhile (fun c => c != 0) = sprintf4d n := by
  apply List.takeWhile_eq_self_iff.mpr
  intro c hc
  have := sprintf4d_bytes n c hc
  simp only [bne_iff_ne, ne_eq]
  omega

theorem headerField_encode (m : Message) (h : m.body_length ≤ 9999) :
    headerField m.encode_header = sprintf4d m.body_length := by
  unfold headerField
  rw [encode_data_take m h, takeWhile_sprintf4d]

theorem decode_header_encode (m : Message) (h : m.body_length ≤ 9999) :
    m.encode_header.decode_header
      = ({ m.encode_header with body_length := m.body_length },
         decide (m.body_length ≤ MAX_BODY_SIZE)) := by
  unfold Message.decode_header
  rw [headerField_encode m h, atoi_sprintf4d _ h]
  have hlt : (m.body_length : Int) < (2 : Int) ^ SIZE_T_BITS := by
    have h' : (m.body_length : Int) ≤ 9999 := by exact_mod_cast h
    have hpow : ((2 : Int) ^ SIZE_T_BITS) = 18446744073709551616 := by
      norm_num [SIZE_T_BITS]
    omega
  rw [Int.emod_eq_of_lt (Int.natCast_nonneg _) hlt]
  simp

/-- C1: for every body of length 0..512, `encode_header` followed by
`decode_header` succeeds (returns `true`), recovers exactly the original body
length, and the body bytes of the encoded frame equal the original body. -/
theorem codec_round_trip (body : List Nat) (h : body.length ≤ MAX_BODY_SIZE) :
    ((mkFrame body).encode_header.decode_header).2 = true
    ∧ ((mkFrame body).encode_header.decode_header).1.body_length = body.length
    ∧ (mkFrame body).encode_header.body = body := by
  have hbl : (mkFrame body).body_length = body.length := rfl
  have h9999 : (mkFrame body).body_length ≤ 9999 := by
    rw [hbl]; unfold MAX_BODY_SIZE at h; omega
  rw [decode_header_encode _ h9999]
  refine ⟨?_, rfl, ?_⟩
  · simp only [decide_eq_true_eq, hbl]
    exact h
  · unfold Message.body Message.encode_header mkFrame
    simp only
    rw [List.drop_left' (by simp [HEADER_SIZE] : (List.replicate HEADER_SIZE 0).length = HEADER_SIZE)]
    have hlen4 : ((sprintf4d body.length).take HEADER_SIZE).length = HEADER_SIZE := by
      rw [List.take_of_length_le (le_of_eq (sprintf4d_length _ (by unfold MAX_BODY_SIZE at h; omega)))]
      exact sprintf4d_length _ (by unfold MAX_BODY_SIZE at h; omega)
    rw [List.drop_left' hlen4, List.take_of_length_le (le_refl _)]

/-! ### Bounds on what `atoi` can return from an at-most-4-byte header -/

theorem digitsValAux_lt (l : List Nat) : ∀ acc, digitsValAux acc l < (acc + 1) * 10 ^ l.length := by
  induction l with
  | nil => intro acc; simp [digitsValAux]
  | cons c r ih =>
    intro acc
    by_cases hc : isDigitB c
    · rw [digitsValAux, if_pos hc]
      have h1 := ih (acc * 10 + (c - 48))
      have hd : c - 48 ≤ 9 := by simp [isDigitB] at hc; omega
      calc digitsValAux (acc * 10 + (c - 48)) r
          < (acc * 10 + (c - 48) + 1) * 10 ^ r.length := h1
        _ ≤ (acc * 10 + 10) * 10 ^ r.length := Nat.mul_le_mul_right _ (by omega)
        _ = (acc + 1) * 10 ^ (c :: r).length := by
            simp [List.length_cons, pow_succ]
            ring
    · rw [digitsValAux, if_neg hc]
      have hX : 0 < 10 ^ (c :: r).length := pow_pos (by omega) _
      have := Nat.le_mul_of_pos_right (acc + 1) hX
      omega

theorem digitsVal_lt (l : List Nat) : digitsValAux 0 l < 10 ^ l.length := by
  have := digitsValAux_lt l 0
  simpa using this

theorem skipSpaces_length_le (l : List Nat) : (skipSpaces l).length ≤ l.length := by
  induction l with
  | nil => simp [skipSpaces]
  | cons c r ih =>
    by_cases h : isSpaceB c
    · rw [skipSpaces, if_pos h]
      simp only [List.length_cons]
      omega
    · rw [skipSpaces, if_neg h]

theorem atoi_bound (s : List Nat) :
    -((10 : Int) ^ s.length) < atoi s ∧ atoi s < (10 : Int) ^ s.length := by
  unfold atoi
  have hlen : (skipSpaces s).length ≤ s.length := skipSpaces_length_le s
  have hmono : (10 : Int) ^ (skipSpaces s).length ≤ (10 : Int) ^ s.length :=
    pow_le_pow_right₀ (by norm_num) hlen
  have hspos : (0 : Int) < (10 : Int) ^ s.length := pow_pos (by norm_num) _
  cases ht : skipSpaces s with
  | nil =>
    rw [atoiSigned]
    constructor <;> omega
  | cons c r =>
    have hrlen : r.length + 1 ≤ s.length := by
      have := skipSpaces_length_le s
      rw [ht] at this
      simpa using this
    have hrmono : (10 : Int) ^ r.length ≤ (10 : Int) ^ s.length :=
      pow_le_pow_right₀ (by norm_num) (by omega)
    have hcrmono : (10 : Int) ^ (c :: r).length ≤ (10 : Int) ^ s.length := by
      rw [← ht]
      exact hmono
    have hr : (digitsValAux 0 r : Int) < (10 : Int) ^ r.length := by
      exact_mod_cast digitsVal_lt r
    have hr0 : (0 : Int) ≤ (digitsValAux 0 r : Int) := Int.natCast_nonneg _
    have hcr : (digitsValAux 0 (c :: r) : Int) < (10 : Int) ^ (c :: r).length := by
      exact_mod_cast digitsVal_lt (c :: r)
    have hcr0 : (0 : Int) ≤ (digitsValAux 0 (c :: r) : Int) := Int.natCast_nonneg _
    rw [atoiSigned]
    split_ifs
    · constructor <;> linarith
    · constructor <;> linarith
    · constructor <;> linarith

theorem headerField_length_le (m : Message) : (headerField m).length ≤ HEADER_SIZE := by
  unfold headerField
  calc ((m.data.take HEADER_SIZE).takeWhile (fun c => c != 0)).length
      ≤ (m.data.take HEADER_SIZE).length := (List.takeWhile_sublist _).length_le
    _ ≤ HEADER_SIZE := List.length_take_le _ _

theorem decode_header_fst (m : Message) :
    (m.decode_header).1.body_length
      = ((atoi (headerField m)) % ((2 : Int) ^ SIZE_T_BITS)).toNat := rfl

theorem decode_header_snd (m : Message) :
    (m.decode_header).2
      = decide (((atoi (headerField m)) % ((2 : Int) ^ SIZE_T_BITS)).toNat ≤ MAX_BODY_SIZE) := rfl

/-- C10: a 4-byte header that `atoi` parses as a negative integer is rejected
by `decode_header`: the negative `int` is converted to `size_t`, wrapping
modulo `2 ^ 64` to a value far above `MAX_BODY_SIZE`; and after every
successful decode `body_length ≤ MAX_BODY_SIZE` holds. -/
theorem decode_negative_rejected (m m2 : Message)
    (hneg : atoi (headerField m) < 0)
    (hok : (m2.decode_header).2 = true) :
    (m.decode_header).2 = false
    ∧ MAX_BODY_SIZE < (m.decode_header).1.body_length
    ∧ (m2.decode_header).1.body_length ≤ MAX_BODY_SIZE := by
  have hb := (atoi_bound (headerField m)).1
  have hlen := headerField_length_le m
  have hpow : (10 : Int) ^ (headerField m).length ≤ (10 : Int) ^ (4 : Nat) :=
    pow_le_pow_right₀ (by norm_num) (by simpa [HEADER_SIZE] using hlen)
  have h4 : ((10 : Int) ^ (4 : Nat)) = 10000 := by norm_num
  have hv : -10000 < atoi (headerField m) := by
    rw [h4] at hpow
    linarith
  have h64 : ((2 : Int) ^ SIZE_T_BITS) = 18446744073709551616 := by
    norm_num [SIZE_T_BITS]
  have hemod : atoi (headerField m) % ((2 : Int) ^ SIZE_T_BITS)
      = atoi (headerField m) + 18446744073709551616 := by
    rw [h64]
    omega
  have hbig : MAX_BODY_SIZE < (m.decode_header).1.body_length := by
    rw [decode_header_fst, hemod]
    unfold MAX_BODY_SIZE
    omega
  refine ⟨?_, hbig, ?_⟩
  · rw [decode_header_snd]
    simp only [decide_eq_false_iff_not, not_le]
    rw [decode_header_fst] at hbig
    exact hbig
  · rw [decode_header_snd] at hok
    simp only [decide_eq_true_eq] at hok
    rw [decode_header_fst]
    exact hok

/-- C10 witness: the header `"  -1"` parses negative and is rejected, while
the header `"   0"` decodes successfully within bounds. -/
theorem decode_negative_rejected_witness :
    atoi (headerField (Message.mk [32, 32, 45, 49] 0)) < 0
    ∧ ((Message.mk [32, 32, 32, 48] 0).decode_header).2 = true
    ∧ ((Message.mk [32, 32, 45, 49] 0).decode_header).2 = false
    ∧ MAX_BODY_SIZE < ((Message.mk [32, 32, 45, 49] 0).decode_header).1.body_length
    ∧ ((Message.mk [32, 32, 32, 48] 0).decode_header).1.body_length ≤ MAX_BODY_SIZE := by
  have h1 : atoi (headerField (Message.mk [32, 32, 45, 49] 0)) < 0 := by decide
  have h2 : ((Message.mk [32, 32, 32, 48] 0).decode_header).2 = true := by decide
  have h := decode_negative_rejected (Message.mk [32, 32, 45, 49] 0)
    (Message.mk [32, 32, 32, 48] 0) h1 h2
  exact ⟨h1, h2, h.1, h.2.1, h.2.2⟩

/-- C1 witness: the round trip at the concrete body `"hi"` ([104, 105]). -/
theorem codec_round_trip_witness :
    [(104 : Nat), 105].length ≤ MAX_BODY_SIZE
    ∧ (((mkFrame [104, 105]).encode_header.decode_header).2 = true
      ∧ ((mkFrame [104, 105]).encode_header.decode_header).1.body_length = [(104 : Nat), 105].length
      ∧ (mkFrame [104, 105]).encode_header.body = [104, 105]) :=
  ⟨by decide, codec_round_trip [104, 105] (by decide)⟩

/-! ### Garbage headers: `atoi` falls back to 0, so decode succeeds -/

/-- C2 counterexample: the all-letters header `"abcd"` ([97, 98, 99, 100]) is
not rejected by `decode_header`; it decodes successfully with body length 0,
contradicting the claim that non-numeric headers yield a parse failure. -/
theorem decode_garbage_cex :
    ((Message.mk [97, 98, 99, 100] 0).decode_header).2 = true
    ∧ ((Message.mk [97, 98, 99, 100] 0).decode_header).1.body_length = 0 := by
  constructor
  · decide
  · decide

theorem digitsValAux_zero_of_no_digit (l : List Nat)
    (h : ∀ c ∈ l, isDigitB c = false) : digitsValAux 0 l = 0 := by
  cases l with
  | nil => rfl
  | cons c r =>
    have hc : isDigitB c = false := h c (by simp)
    rw [digitsValAux, if_neg (by simp [hc])]

theorem mem_of_mem_skipSpaces (l : List Nat) (c : Nat) (h : c ∈ skipSpaces l) : c ∈ l := by
  induction l with
  | nil => simpa [skipSpaces] using h
  | cons d r ih =>
    by_cases hd : isSpaceB d
    · rw [skipSpaces, if_pos hd] at h
      exact List.mem_cons_of_mem _ (ih h)
    · rw [skipSpaces, if_neg hd] at h
      exact h

theorem atoi_zero_of_no_digit (l : List Nat)
    (h : ∀ c ∈ l, isDigitB c = false) : atoi l = 0 := by
  unfold atoi
  have hsub : ∀ c ∈ skipSpaces l, isDigitB c = false :=
    fun c hc => h c (mem_of_mem_skipSpaces l c hc)
  cases ht : skipSpaces l with
  | nil => rfl
  | cons c r =>
    have hr : ∀ d ∈ r, isDigitB d = false := by
      intro d hd
      exact hsub d (by rw [ht]; exact List.mem_cons_of_mem _ hd)
    have hcr : ∀ d ∈ c :: r, isDigitB d = false := by
      intro d hd
      exact hsub d (by rw [ht]; exact hd)
    rw [atoiSigned]
    split_ifs
    · simp [digitsValAux_zero_of_no_digit r hr]
    · simp [digitsValAux_zero_of_no_digit r hr]
    · simp [digitsValAux_zero_of_no_digit (c :: r) hcr]

/-- C2 amended: on a header whose bytes contain no decimal digit,
`decode_header` does NOT report a parse failure; `atoi` falls back to 0, so
the decode succeeds and declares a body length of exactly 0 (the connection
is kept, and the session then waits for the next header). -/
theorem decode_no_digit_succeeds_zero (m : Message)
    (h : ∀ c ∈ headerField m, isDigitB c = false) :
    (m.decode_header).2 = true ∧ (m.decode_header).1.body_length = 0 := by
  have h0 : atoi (headerField m) = 0 := atoi_zero_of_no_digit _ h
  constructor
  · rw [decode_header_snd, h0]
    decide
  · rw [decode_header_fst, h0]
    decide

/-- C2 amended-claim witness at the concrete garbage header `"abcd"`. -/
theorem decode_no_digit_succeeds_zero_witness :
    (∀ c ∈ headerField (Message.mk [97, 98, 99, 100] 0), isDigitB c = false)
    ∧ (((Message.mk [97, 98, 99, 100] 0).decode_header).2 = true
      ∧ ((Message.mk [97, 98, 99, 100] 0).decode_header).1.body_length = 0) :=
  ⟨by decide, decode_no_digit_succeeds_zero (Message.mk [97, 98, 99, 100] 0) (by decide)⟩

/-! ### Decode boundary at MAX_BODY_SIZE -/

theorem headerField_mk_sprintf (n : Nat) (h : n ≤ 9999) :
    headerField (Message.mk (sprintf4d n) 0) = sprintf4d n := by
  unfold headerField
  simp only
  rw [List.take_of_length_le (le_of_eq (sprintf4d_length n h)), takeWhile_sprintf4d]

theorem decode_mk_sprintf (n : Nat) (h : n ≤ 9999) :
    ((Message.mk (sprintf4d n) 0).decode_header).1.body_length = n
    ∧ ((Message.mk (sprintf4d n) 0).decode_header).2 = decide (n ≤ MAX_BODY_SIZE) := by
  have hemod : atoi (headerField (Message.mk (sprintf4d n) 0)) % ((2 : Int) ^ SIZE_T_BITS)
      = (n : Int) := by
    rw [headerField_mk_sprintf n h, atoi_sprintf4d n h]
    apply Int.emod_eq_of_lt (Int.natCast_nonneg _)
    have h' : (n : Int) ≤ 9999 := by exact_mod_cast h
    have hpow : ((2 : Int) ^ SIZE_T_BITS) = 18446744073709551616 := by
      norm_num [SIZE_T_BITS]
    omega
  constructor
  · rw [decode_header_fst, hemod]
    exact Int.toNat_natCast n
  · rw [decode_header_snd, hemod, Int.toNat_natCast]

/-- C5: a well-formed decimal header declaring body length exactly 512 is
accepted by `decode_header` (with that length), while a declared length of
513 — or any representable declared length exceeding `MAX_BODY_SIZE` — is
rejected (`decode_header` returns `false`). -/
theorem decode_boundary (n : Nat) (h1 : n ≤ 9999) (h2 : MAX_BODY_SIZE < n) :
    ((Message.mk (sprintf4d 512) 0).decode_header).2 = true
    ∧ ((Message.mk (sprintf4d 512) 0).decode_header).1.body_length = 512
    ∧ ((Message.mk (sprintf4d 513) 0).decode_header).2 = false
    ∧ ((Message.mk (sprintf4d n) 0).decode_header).2 = false := by
  refine ⟨?_, (decode_mk_sprintf 512 (by omega)).1, ?_, ?_⟩
  · rw [(decode_mk_sprintf 512 (by omega)).2]
    decide
  · rw [(decode_mk_sprintf 513 (by omega)).2]
    decide
  · rw [(decode_mk_sprintf n h1).2]
    simp only [decide_eq_false_iff_not, not_le]
    exact h2

/-- C5 witness: instantiated at the over-limit declared length 600. -/
theorem decode_boundary_witness :
    ((600 : Nat) ≤ 9999 ∧ MAX_BODY_SIZE < 600)
    ∧ (((Message.mk (sprintf4d 512) 0).decode_header).2 = true
      ∧ ((Message.mk (sprintf4d 512) 0).decode_header).1.body_length = 512
      ∧ ((Message.mk (sprintf4d 513) 0).decode_header).2 = false
      ∧ ((Message.mk (sprintf4d 600) 0).decode_header).2 = false) :=
  ⟨⟨by decide, by decide⟩, decode_boundary 600 (by decide) (by decide)⟩

/-! ### Header encoding format -/

/-- C8: for every message with body length at most 512, `encode_header`
writes a header of exactly `HEADER_SIZE = 4` bytes consisting of the decimal
ASCII digits of the body length right-justified (left-padded with spaces),
whose digits evaluate back to the body length, containing no sign byte
(`+` = 43 or `-` = 45), and leaves the body bytes — everything after the
4-byte header — unchanged. -/
theorem header_format (m : Message) (h : m.body_length ≤ MAX_BODY_SIZE) :
    (m.encode_header.data.take HEADER_SIZE).length = HEADER_SIZE
    ∧ m.encode_header.data.take HEADER_SIZE
      = List.replicate (HEADER_SIZE - (natDigits m.body_length).length) 32
          ++ natDigits m.body_length
    ∧ natDigits m.body_length ≠ []
    ∧ (∀ c ∈ natDigits m.body_length, 48 ≤ c ∧ c ≤ 57)
    ∧ digitsValAux 0 (natDigits m.body_length) = m.body_length
    ∧ (∀ c ∈ m.encode_header.data.take HEADER_SIZE, c ≠ 43 ∧ c ≠ 45)
    ∧ m.encode_header.data.drop HEADER_SIZE = m.data.drop HEADER_SIZE := by
  have h9999 : m.body_length ≤ 9999 := by
    unfold MAX_BODY_SIZE at h
    omega
  have htake := encode_data_take m h9999
  refine ⟨?_, ?_, natDigits_ne_nil _, natDigits_digits _, digitsVal_natDigits _, ?_, encode_data_drop m h9999⟩
  · rw [htake]
    exact sprintf4d_length _ h9999
  · rw [htake]
    rfl
  · intro c hc
    rw [htake] at hc
    have := sprintf4d_bytes m.body_length c hc
    omega

/-- C8 witness: the format statement at the concrete frame for body `"hi"`. -/
theorem header_format_witness :
    (mkFrame [104, 105]).body_length ≤ MAX_BODY_SIZE
    ∧ ((((mkFrame [104, 105]).encode_header.data.take HEADER_SIZE).length = HEADER_SIZE)
      ∧ (mkFrame [104, 105]).encode_header.data.take HEADER_SIZE
        = List.replicate (HEADER_SIZE - (natDigits (mkFrame [104, 105]).body_length).length) 32
            ++ natDigits (mkFrame [104, 105]).body_length
      ∧ natDigits (mkFrame [104, 105]).body_length ≠ []
      ∧ (∀ c ∈ natDigits (mkFrame [104, 105]).body_length, 48 ≤ c ∧ c ≤ 57)
      ∧ digitsValAux 0 (natDigits (mkFrame [104, 105]).body_length)
          = (mkFrame [104, 105]).body_length
      ∧ (∀ c ∈ (mkFrame [104, 105]).encode_header.data.take HEADER_SIZE, c ≠ 43 ∧ c ≠ 45)
      ∧ (mkFrame [104, 105]).encode_header.data.drop HEADER_SIZE
          = (mkFrame [104, 105]).data.drop HEADER_SIZE) :=
  ⟨by decide, header_format (mkFrame [104, 105]) (by decide)⟩

/-! ### The chat room registry (`ChatRoom`, server.cpp lines 12-49)

Participants (`std::set<chat_participant_ptr>`) are modelled as a
`Finset Nat` of opaque session identifiers.  The per-participant `deliver`
calls are recorded in a ghost field `received`: the list, in call order, of
the messages the room has handed to each session's outbound queue. -/

/-- Constant `ChatRoom::MAX_RECENT_MSGS`. -/
def MAX_RECENT_MSGS : Nat := 100

/-- The state of a `ChatRoom`: the membership set, the backlog queue
(`recent_messages_`, front of the list = front of the queue = oldest), and
the ghost record of what each participant's `deliver` has been handed. -/
structure RoomState where
  participants : Finset Nat
  backlog : List Message
  received : Nat → List Message

/-- The `while (recent_messages_.size() > MAX_RECENT_MSGS) pop();` loop in
`ChatRoom::deliver` (server.cpp lines 40-42): drop from the front until at
most `MAX_RECENT_MSGS` entries remain. -/
def trimBacklog (q : List Message) : List Message :=
  if h : MAX_RECENT_MSGS < q.length then trimBacklog q.tail else q
termination_by q.length
decreasing_by
  have : q ≠ [] := by
    intro hq
    rw [hq] at h
    simp [MAX_RECENT_MSGS] at h
  cases q with
  | nil => simp at this
  | cons a l => simp

/-- Model of `ChatRoom::join` (server.cpp lines 20-28): insert into the membership
set, then deliver every backlog message, oldest first, to the joining
participant only.  NOTE (C4): the source's line 25 iterates a
`std::queue<Message>` copy with a range-based `for`, which is ill-formed
C++ — `std::queue` has no `begin`/`end` — so the repository does not
compile; this definition models the evident intent of that loop (replay the
queue's contents front to back). -/
def roomJoin (p : Nat) (s : RoomState) : RoomState :=
  { s with
    participants := insert p s.participants,
    received := fun q => if q = p then s.received q ++ s.backlog else s.received q }

/-- Model of `ChatRoom::leave` (server.cpp lines 30-33): erase from the membership
set (`std::set::erase`: erasing an absent element is a no-op). -/
def roomLeave (p : Nat) (s : RoomState) : RoomState :=
  { s with participants := s.participants.erase p }

/-- Model of `ChatRoom::deliver` (server.cpp lines 35-48): push the message onto the
backlog, evict from the front while over capacity, then hand the message to
every current participant. -/
def roomDeliver (s : RoomState) (m : Message) : RoomState :=
  { s with
    backlog := trimBacklog (s.backlog ++ [m]),
    received := fun q => if q ∈ s.participants then s.received q ++ [m] else s.received q }

/-- The room a `ChatServer` starts with: no participants, empty backlog. -/
def initRoom : RoomState :=
  { participants := ∅, backlog := [], received := fun _ => [] }

theorem trimBacklog_eq_drop (q : List Message) :
    trimBacklog q = q.drop (q.length - MAX_RECENT_MSGS) := by
  induction q using trimBacklog.induct with
  | case1 q h ih =>
    rw [trimBacklog, dif_pos h, ih]
    cases q with
    | nil => simp [MAX_RECENT_MSGS] at h
    | cons a l =>
      simp only [List.length_cons, List.tail_cons]
      have hlen : l.length + 1 - MAX_RECENT_MSGS = (l.length - MAX_RECENT_MSGS) + 1 := by
        simp only [List.length_cons, MAX_RECENT_MSGS] at h ⊢
        omega
      rw [hlen, List.drop_succ_cons]
  | case2 q h =>
    rw [trimBacklog, dif_neg h]
    have : q.length - MAX_RECENT_MSGS = 0 := by omega
    rw [this, List.drop_zero]

theorem roomDeliver_backlog (s : RoomState) (m : Message) :
    (roomDeliver s m).backlog
      = (s.backlog ++ [m]).drop ((s.backlog.length + 1) - MAX_RECENT_MSGS) := by
  unfold roomDeliver
  simp only
  rw [trimBacklog_eq_drop]
  simp

theorem roomDeliver_backlog_le (s : RoomState) (m : Message) :
    (roomDeliver s m).backlog.length ≤ MAX_RECENT_MSGS := by
  rw [roomDeliver_backlog]
  simp only [List.length_drop, List.length_append, List.length_singleton]
  omega

theorem foldl_roomDeliver_backlog (msgs : List Message) :
    ∀ s : RoomState, s.backlog.length ≤ MAX_RECENT_MSGS →
    (List.foldl roomDeliver s msgs).backlog
      = (s.backlog ++ msgs).drop ((s.backlog.length + msgs.length) - MAX_RECENT_MSGS) := by
  induction msgs with
  | nil =>
    intro s hs
    simp only [List.foldl_nil, List.append_nil, List.length_nil, Nat.add_zero]
    have : s.backlog.length - MAX_RECENT_MSGS = 0 := by omega
    rw [this, List.drop_zero]
  | cons m ms ih =>
    intro s hs
    rw [List.foldl_cons]
    have hle : (roomDeliver s m).backlog.length ≤ MAX_RECENT_MSGS :=
      roomDeliver_backlog_le s m
    rw [ih (roomDeliver s m) hle, roomDeliver_backlog]
    have hk : (s.backlog.length + 1) - MAX_RECENT_MSGS ≤ (s.backlog ++ [m]).length := by
      rw [List.length_append, List.length_singleton]
      omega
    rw [← List.drop_append_of_le_length hk, List.drop_drop]
    rw [List.append_assoc, List.singleton_append]
    congr 1
    simp only [List.length_drop, List.length_append, List.length_singleton, List.length_cons,
      List.length_nil]
    omega

/-- C3: after any N > 100 calls to `deliver`, the backlog holds exactly the
last 100 delivered messages in call order; the backlog never exceeds 100
entries after any operation (`join` and `leave` do not touch it), and a
`deliver` at full capacity evicts exactly the oldest entry. -/
theorem backlog_bound (msgs : List Message) (h : MAX_RECENT_MSGS < msgs.length) :
    (List.foldl roomDeliver initRoom msgs).backlog
      = msgs.drop (msgs.length - MAX_RECENT_MSGS)
    ∧ (List.foldl roomDeliver initRoom msgs).backlog.length = MAX_RECENT_MSGS
    ∧ (∀ (s : RoomState) (m : Message),
        (roomDeliver s m).backlog.length ≤ MAX_RECENT_MSGS)
    ∧ (∀ (s : RoomState) (p : Nat),
        (roomJoin p s).backlog = s.backlog ∧ (roomLeave p s).backlog = s.backlog)
    ∧ (∀ (s : RoomState) (m : Message), s.backlog.length = MAX_RECENT_MSGS →
        (roomDeliver s m).backlog = s.backlog.tail ++ [m]) := by
  have hfold := foldl_roomDeliver_backlog msgs initRoom (by simp [initRoom])
  have h1 : (List.foldl roomDeliver initRoom msgs).backlog
      = msgs.drop (msgs.length - MAX_RECENT_MSGS) := by
    rw [hfold]
    simp [initRoom]
  refine ⟨h1, ?_, fun s m => roomDeliver_backlog_le s m, fun s p => ⟨rfl, rfl⟩, ?_⟩
  · rw [h1]
    simp only [List.length_drop]
    omega
  · intro s m hfull
    rw [roomDeliver_backlog, hfull]
    have h1le : (1 : Nat) ≤ s.backlog.length := by
      rw [hfull]
      unfold MAX_RECENT_MSGS
      omega
    have hidx : MAX_RECENT_MSGS + 1 - MAX_RECENT_MSGS = 1 := by omega
    rw [hidx, List.drop_append_of_le_length h1le, List.drop_one]

/-- C3 witness: 101 deliveries into the initial room. -/
theorem backlog_bound_witness :
    MAX_RECENT_MSGS < (List.replicate 101 (Message.mk [] 0)).length
    ∧ ((List.foldl roomDeliver initRoom (List.replicate 101 (Message.mk [] 0))).backlog
        = (List.replicate 101 (Message.mk [] 0)).drop
            ((List.replicate 101 (Message.mk [] 0)).length - MAX_RECENT_MSGS)
      ∧ (List.foldl roomDeliver initRoom (List.replicate 101 (Message.mk [] 0))).backlog.length
          = MAX_RECENT_MSGS
      ∧ (∀ (s : RoomState) (m : Message),
          (roomDeliver s m).backlog.length ≤ MAX_RECENT_MSGS)
      ∧ (∀ (s : RoomState) (p : Nat),
          (roomJoin p s).backlog = s.backlog ∧ (roomLeave p s).backlog = s.backlog)
      ∧ (∀ (s : RoomState) (m : Message), s.backlog.length = MAX_RECENT_MSGS →
          (roomDeliver s m).backlog = s.backlog.tail ++ [m])) :=
  ⟨by decide, backlog_bound (List.replicate 101 (Message.mk [] 0)) (by decide)⟩

/-- C7: `leave` of an absent session is a no-op (so calling it twice is
harmless), and any `leave x` removes at most `x`, leaving every other member
and the rest of the room state unchanged. -/
theorem leave_idempotent (s : RoomState) (x : Nat) (hx : x ∉ s.participants) :
    roomLeave x s = s
    ∧ (∀ t : RoomState, roomLeave x (roomLeave x t) = roomLeave x t)
    ∧ (∀ (t : RoomState) (y : Nat), y ≠ x →
        (y ∈ (roomLeave x t).participants ↔ y ∈ t.participants))
    ∧ (∀ t : RoomState,
        (roomLeave x t).backlog = t.backlog ∧ (roomLeave x t).received = t.received) := by
  refine ⟨?_, ?_, ?_, fun t => ⟨rfl, rfl⟩⟩
  · unfold roomLeave
    rw [Finset.erase_eq_of_not_mem hx]
  · intro t
    unfold roomLeave
    rw [Finset.erase_idem]
  · intro t y hy
    unfold roomLeave
    simp only [Finset.mem_erase, ne_eq, hy, not_false_eq_true, true_and]

/-- C7 witness: removing the absent session 3 from a room holding
sessions 1 and 2. -/
theorem leave_idempotent_witness :
    (3 : Nat) ∉ (RoomState.mk {1, 2} [] (fun _ => [])).participants
    ∧ (roomLeave 3 (RoomState.mk {1, 2} [] (fun _ => []))
        = RoomState.mk {1, 2} [] (fun _ => [])
      ∧ (∀ t : RoomState, roomLeave 3 (roomLeave 3 t) = roomLeave 3 t)
      ∧ (∀ (t : RoomState) (y : Nat), y ≠ 3 →
          (y ∈ (roomLeave 3 t).participants ↔ y ∈ t.participants))
      ∧ (∀ t : RoomState,
          (roomLeave 3 t).backlog = t.backlog ∧ (roomLeave 3 t).received = t.received)) :=
  ⟨by decide, leave_idempotent (RoomState.mk {1, 2} [] (fun _ => [])) 3 (by decide)⟩

/-! ### Join snapshot (intended semantics of the ill-formed join loop) -/

theorem foldl_roomDeliver_participants (msgs : List Message) :
    ∀ s : RoomState, (List.foldl roomDeliver s msgs).participants = s.participants := by
  induction msgs with
  | nil => intro s; rfl
  | cons m ms ih =>
    intro s
    rw [List.foldl_cons, ih]
    rfl

theorem foldl_roomDeliver_received_not_mem (msgs : List Message) :
    ∀ (s : RoomState) (p : Nat), p ∉ s.participants →
      (List.foldl roomDeliver s msgs).received p = s.received p := by
  induction msgs with
  | nil => intro s p _; rfl
  | cons m ms ih =>
    intro s p hp
    rw [List.foldl_cons, ih (roomDeliver s m) p hp]
    unfold roomDeliver
    simp [hp]

theorem foldl_roomDeliver_received_mem (msgs : List Message) :
    ∀ (s : RoomState) (p : Nat), p ∈ s.participants →
      (List.foldl roomDeliver s msgs).received p = s.received p ++ msgs := by
  induction msgs with
  | nil => intro s p _; simp
  | cons m ms ih =>
    intro s p hp
    rw [List.foldl_cons, ih (roomDeliver s m) p hp]
    unfold roomDeliver
    simp [hp]

/-- C4 (proved of the intended join semantics, see `roomJoin`'s note about
the ill-formed source loop): a session joining after K ≤ 100 deliveries into
a fresh room is handed exactly those K messages, oldest first, before any
message delivered after the join; the snapshot goes only to the joining
session. -/
theorem join_snapshot (msgs : List Message) (h : msgs.length ≤ MAX_RECENT_MSGS)
    (p : Nat) (msgs2 : List Message) :
    (roomJoin p (List.foldl roomDeliver initRoom msgs)).received p = msgs
    ∧ (∀ q, q ≠ p →
        (roomJoin p (List.foldl roomDeliver initRoom msgs)).received q
          = (List.foldl roomDeliver initRoom msgs).received q)
    ∧ (List.foldl roomDeliver
        (roomJoin p (List.foldl roomDeliver initRoom msgs)) msgs2).received p
        = msgs ++ msgs2 := by
  have hparts : (List.foldl roomDeliver initRoom msgs).participants = ∅ :=
    foldl_roomDeliver_participants msgs initRoom
  have hnotmem : p ∉ (List.foldl roomDeliver initRoom msgs).participants := by
    rw [hparts]
    exact Finset.not_mem_empty p
  have hrecv : (List.foldl roomDeliver initRoom msgs).received p = [] :=
    foldl_roomDeliver_received_not_mem msgs initRoom p (Finset.not_mem_empty p)
  have hback : (List.foldl roomDeliver initRoom msgs).backlog = msgs := by
    rw [foldl_roomDeliver_backlog msgs initRoom (by simp [initRoom])]
    simp only [initRoom, List.nil_append, List.length_nil, Nat.zero_add]
    have : msgs.length - MAX_RECENT_MSGS = 0 := by omega
    rw [this, List.drop_zero]
  have ha : (roomJoin p (List.foldl roomDeliver initRoom msgs)).received p = msgs := by
    unfold roomJoin
    simp [hrecv, hback]
  refine ⟨ha, ?_, ?_⟩
  · intro q hq
    unfold roomJoin
    simp [hq]
  · have hmem : p ∈ (roomJoin p (List.foldl roomDeliver initRoom msgs)).participants := by
      unfold roomJoin
      simp
    rw [foldl_roomDeliver_received_mem msgs2 _ p hmem, ha]

/-- C4 witness: two pre-join deliveries, then session 5 joins, then one more
delivery. -/
theorem join_snapshot_witness :
    [Message.mk [] 1, Message.mk [] 2].length ≤ MAX_RECENT_MSGS
    ∧ ((roomJoin 5 (List.foldl roomDeliver initRoom
          [Message.mk [] 1, Message.mk [] 2])).received 5
        = [Message.mk [] 1, Message.mk [] 2]
      ∧ (∀ q, q ≠ 5 →
          (roomJoin 5 (List.foldl roomDeliver initRoom
            [Message.mk [] 1, Message.mk [] 2])).received q
            = (List.foldl roomDeliver initRoom
                [Message.mk [] 1, Message.mk [] 2]).received q)
      ∧ (List.foldl roomDeliver
          (roomJoin 5 (List.foldl roomDeliver initRoom
            [Message.mk [] 1, Message.mk [] 2])) [Message.mk [] 3]).received 5
          = [Message.mk [] 1, Message.mk [] 2] ++ [Message.mk [] 3]) :=
  ⟨by decide, join_snapshot [Message.mk [] 1, Message.mk [] 2] (by decide) 5 [Message.mk [] 3]⟩

/-! ### The server-side message transform (`ChatSession::do_read_body`) -/

/-- ASCII byte values of a string literal. -/
def asciiStr (s : String) : List Nat := s.toList.map Char.toNat

/-- The transform in `ChatSession::do_read_body` (server.cpp lines 102-117):
`formatted_msg = "[" + timestamp + "] Client: " + body`, then a fresh
response message with `body_length = min(formatted_msg.size(), MAX_BODY_SIZE)`,
the first `body_length` bytes of `formatted_msg` copied into the body region,
and the header encoded.  The byte literals are the ASCII codes of
`'['` and `"] Client: "`; the timestamp (from `ctime`, trailing newline
removed) is an arbitrary byte string parameter. -/
def serverTransform (ts : List Nat) (b : List Nat) : Message :=
  let formatted : List Nat :=
    91 :: (ts ++ ([93, 32, 67, 108, 105, 101, 110, 116, 58, 32] ++ b))
  Message.encode_header
    { data := List.replicate HEADER_SIZE 0
        ++ formatted.take (min formatted.length MAX_BODY_SIZE),
      body_length := min formatted.length MAX_BODY_SIZE }

theorem take_min_length (l : List Nat) (k : Nat) :
    l.take (min l.length k) = l.take k := by
  rcases le_total l.length k with h | h
  · rw [min_eq_left h, List.take_length, List.take_of_length_le h]
  · rw [min_eq_right h]

/-- C6: the outbound message the session constructs from a decoded inbound
body is exactly `"[" ++ timestamp ++ "] Client: " ++ body`, truncated to
`MAX_BODY_SIZE` (512) bytes when the decoration pushes it over budget; its
`body_length` is the (possibly truncated) length of that concatenation. -/
theorem server_transform_spec (ts b : List Nat) :
    (serverTransform ts b).body
      = (asciiStr "[" ++ ts ++ asciiStr "] Client: " ++ b).take MAX_BODY_SIZE
    ∧ (serverTransform ts b).body_length
      = min (asciiStr "[" ++ ts ++ asciiStr "] Client: " ++ b).length MAX_BODY_SIZE := by
  have hfmt : asciiStr "[" ++ ts ++ asciiStr "] Client: " ++ b
      = 91 :: (ts ++ ([93, 32, 67, 108, 105, 101, 110, 116, 58, 32] ++ b)) := by
    have h1 : asciiStr "[" = [91] := by decide
    have h2 : asciiStr "] Client: " = [93, 32, 67, 108, 105, 101, 110, 116, 58, 32] := by decide
    rw [h1, h2]
    simp
  rw [hfmt]
  set f : List Nat := 91 :: (ts ++ ([93, 32, 67, 108, 105, 101, 110, 116, 58, 32] ++ b)) with hf
  have hblen : min f.length MAX_BODY_SIZE ≤ 9999 := by
    have : min f.length MAX_BODY_SIZE ≤ MAX_BODY_SIZE := min_le_right _ _
    unfold MAX_BODY_SIZE at this ⊢
    omega
  constructor
  · show ((serverTransform ts b).data.drop HEADER_SIZE).take (serverTransform ts b).body_length
      = f.take MAX_BODY_SIZE
    have hdrop : (serverTransform ts b).data.drop HEADER_SIZE
        = f.take (min f.length MAX_BODY_SIZE) := by
      unfold serverTransform
      rw [encode_data_drop _ hblen]
      simp only
      rw [List.drop_left' (by simp [HEADER_SIZE])]
    have hbl : (serverTransform ts b).body_length = min f.length MAX_BODY_SIZE := rfl
    rw [hdrop, hbl]
    rw [List.take_of_length_le (by simp), take_min_length]
  · exact rfl

/-! ### Single-writer outbound queue (`ChatSession::deliver` / `do_write`)

`deliver` may be invoked concurrently (from room fan-out on any worker
thread) while a previous write's completion handler drains the queue.  We
model one session's shared state — the atomic `writing_` flag, the
mutex-protected `write_msgs_` queue, and (as ghost state) the asynchronous
write operations currently in flight — together with the multiset of
in-progress activities, each sitting at one of the program points between
its accesses to the shared state.  Every thread interleaving of the source
is a path of the `SessStep` relation below. -/

/-- One in-progress activity on a session, identified by program point:
`atExchange m` = a `deliver(m)` call about to run `writing_.exchange(true)`
(server.cpp line 71); `atPush wip m` = it holds the exchange result `wip`
and is about to push `m` under the mutex (lines 73-76); `atTest wip` = it is
about to test `if (!write_in_progress)` (line 78); `atDoWrite` = a
`do_write()` call about to run its locked empty-check/pop section (lines
127-135); `atIssue m` = it popped `m` and is about to call `async_write`
(lines 138-139); `writeInFlight m` = an `async_write` of `m` is in flight
with its completion handler pending (lines 140-147); `atClear` = a failed
write's handler about to run `writing_ = false` (line 145). -/
inductive TaskState where
  | atExchange (m : Message)
  | atPush (wip : Bool) (m : Message)
  | atTest (wip : Bool)
  | atDoWrite
  | atIssue (m : Message)
  | writeInFlight (m : Message)
  | atClear
deriving DecidableEq

/-- One session's outbound-queue state: the `writing_` flag, the
`write_msgs_` queue (front = next message to write), and the in-progress
activities. -/
structure SessState where
  writing : Bool
  queue : List Message
  tasks : List TaskState

/-- A fresh session (server.cpp line 59): flag clear, queue empty, nothing
in progress. -/
def initSess : SessState := { writing := false, queue := [], tasks := [] }

/-- One interleaved step of the session.  Each rule performs exactly the
shared-state access of the corresponding source line; `spawn` is a new
concurrent `ChatSession::deliver` invocation arriving from the room's
fan-out (server.cpp lines 45-47). -/
inductive SessStep : SessState → SessState → Prop where
  | spawn (w : Bool) (q : List Message) (ts : List TaskState) (m : Message) :
      SessStep ⟨w, q, ts⟩ ⟨w, q, ts ++ [TaskState.atExchange m]⟩
  | exchange (w : Bool) (q : List Message) (l r : List TaskState) (m : Message) :
      SessStep ⟨w, q, l ++ TaskState.atExchange m :: r⟩
               ⟨true, q, l ++ TaskState.atPush w m :: r⟩
  | push (w : Bool) (q : List Message) (l r : List TaskState) (wip : Bool) (m : Message) :
      SessStep ⟨w, q, l ++ TaskState.atPush wip m :: r⟩
               ⟨w, q ++ [m], l ++ TaskState.atTest wip :: r⟩
  | testBusy (w : Bool) (q : List Message) (l r : List TaskState) :
      SessStep ⟨w, q, l ++ TaskState.atTest true :: r⟩ ⟨w, q, l ++ r⟩
  | testIdle (w : Bool) (q : List Message) (l r : List TaskState) :
      SessStep ⟨w, q, l ++ TaskState.atTest false :: r⟩
               ⟨w, q, l ++ TaskState.atDoWrite :: r⟩
  | popEmpty (w : Bool) (l r : List TaskState) :
      SessStep ⟨w, [], l ++ TaskState.atDoWrite :: r⟩ ⟨false, [], l ++ r⟩
  | popMsg (w : Bool) (m : Message) (q : List Message) (l r : List TaskState) :
      SessStep ⟨w, m :: q, l ++ TaskState.atDoWrite :: r⟩
               ⟨w, q, l ++ TaskState.atIssue m :: r⟩
  | issue (w : Bool) (q : List Message) (l r : List TaskState) (m : Message) :
      SessStep ⟨w, q, l ++ TaskState.atIssue m :: r⟩
               ⟨w, q, l ++ TaskState.writeInFlight m :: r⟩
  | completeOk (w : Bool) (q : List Message) (l r : List TaskState) (m : Message) :
      SessStep ⟨w, q, l ++ TaskState.writeInFlight m :: r⟩
               ⟨w, q, l ++ TaskState.atDoWrite :: r⟩
  | completeErr (w : Bool) (q : List Message) (l r : List TaskState) (m : Message) :
      SessStep ⟨w, q, l ++ TaskState.writeInFlight m :: r⟩
               ⟨w, q, l ++ TaskState.atClear :: r⟩
  | clearFlag (w : Bool) (q : List Message) (l r : List TaskState) :
      SessStep ⟨w, q, l ++ TaskState.atClear :: r⟩ ⟨false, q, l ++ r⟩

/-- Activities holding the writer role: they observed `writing_ = false` at
their exchange, or are executing `do_write` / holding a pending write. -/
def ownerB : TaskState → Bool
  | TaskState.atPush wip _ => !wip
  | TaskState.atTest wip => !wip
  | TaskState.atDoWrite => true
  | TaskState.atIssue _ => true
  | TaskState.writeInFlight _ => true
  | TaskState.atClear => true
  | TaskState.atExchange _ => false

/-- Activities that are an `async_write` in flight. -/
def inFlightB : TaskState → Bool
  | TaskState.writeInFlight _ => true
  | _ => false

def ownerCount (s : SessState) : Nat := s.tasks.countP ownerB

def inFlightCount (s : SessState) : Nat := s.tasks.countP inFlightB

/-- The inductive invariant: at most one activity owns the writer role, and
when `writing_` is clear nobody does. -/
def WriterInv (s : SessState) : Prop :=
  ownerCount s ≤ 1 ∧ (s.writing = false → ownerCount s = 0)

theorem countP_middle (p : TaskState → Bool) (l r : List TaskState) (x : TaskState) :
    List.countP p (l ++ x :: r)
      = List.countP p l + List.countP p r + (if p x then 1 else 0) := by
  rw [List.countP_append, List.countP_cons]
  omega

theorem writerInv_init : WriterInv initSess := by
  constructor <;> simp [initSess, ownerCount]

theorem writerInv_step (s s2 : SessState) (hs : WriterInv s) (h : SessStep s s2) :
    WriterInv s2 := by
  obtain ⟨h1, h2⟩ := hs
  cases h with
  | spawn w q ts m =>
    simp only [WriterInv, ownerCount, List.countP_append, List.countP_cons, List.countP_nil,
      ownerB, Bool.false_eq_true, if_false] at h1 h2 ⊢
    refine ⟨by omega, fun hw => ?_⟩
    have := h2 hw
    omega
  | exchange w q l r m =>
    simp only [WriterInv, ownerCount, List.countP_append, List.countP_cons, List.countP_nil,
      ownerB, Bool.false_eq_true, Bool.true_eq_false, if_false, false_implies, and_true] at h1 h2 ⊢
    cases w with
    | false =>
      have h0 := h2 rfl
      simp only [Bool.not_false, eq_self_iff_true, if_true]
      omega
    | true =>
      simp only [Bool.not_true, Bool.false_eq_true, if_false] at h1 ⊢
      omega
  | push w q l r wip m =>
    simp only [WriterInv, ownerCount, List.countP_append, List.countP_cons, List.countP_nil,
      ownerB] at h1 h2 ⊢
    refine ⟨by omega, fun hw => ?_⟩
    have := h2 hw
    omega
  | testBusy w q l r =>
    simp only [WriterInv, ownerCount, List.countP_append, List.countP_cons, List.countP_nil,
      ownerB, Bool.not_true, Bool.false_eq_true, if_false] at h1 h2 ⊢
    refine ⟨by omega, fun hw => ?_⟩
    have := h2 hw
    omega
  | testIdle w q l r =>
    simp only [WriterInv, ownerCount, List.countP_append, List.countP_cons, List.countP_nil,
      ownerB, Bool.not_true, Bool.not_false, eq_self_iff_true, if_true] at h1 h2 ⊢
    refine ⟨by omega, fun hw => ?_⟩
    have := h2 hw
    omega
  | popEmpty w l r =>
    simp only [WriterInv, ownerCount, List.countP_append, List.countP_cons, List.countP_nil,
      ownerB, eq_self_iff_true, if_true] at h1 h2 ⊢
    refine ⟨by omega, fun _ => by omega⟩
  | popMsg w m q l r =>
    simp only [WriterInv, ownerCount, List.countP_append, List.countP_cons, List.countP_nil,
      ownerB, eq_self_iff_true, if_true] at h1 h2 ⊢
    refine ⟨by omega, fun hw => ?_⟩
    have := h2 hw
    omega
  | issue w q l r m =>
    simp only [WriterInv, ownerCount, List.countP_append, List.countP_cons, List.countP_nil,
      ownerB, eq_self_iff_true, if_true] at h1 h2 ⊢
    refine ⟨by omega, fun hw => ?_⟩
    have := h2 hw
    omega
  | completeOk w q l r m =>
    simp only [WriterInv, ownerCount, List.countP_append, List.countP_cons, List.countP_nil,
      ownerB, eq_self_iff_true, if_true] at h1 h2 ⊢
    refine ⟨by omega, fun hw => ?_⟩
    have := h2 hw
    omega
  | completeErr w q l r m =>
    simp only [WriterInv, ownerCount, List.countP_append, List.countP_cons, List.countP_nil,
      ownerB, eq_self_iff_true, if_true] at h1 h2 ⊢
    refine ⟨by omega, fun hw => ?_⟩
    have := h2 hw
    omega
  | clearFlag w q l r =>
    simp only [WriterInv, ownerCount, List.countP_append, List.countP_cons, List.countP_nil,
      ownerB, eq_self_iff_true, if_true] at h1 h2 ⊢
    refine ⟨by omega, fun _ => by omega⟩

/-- States of one session's outbound queue reachable from a fresh session by
any interleaving of concurrent `deliver` calls, drain steps and write
completions. -/
def SessReachable (s : SessState) : Prop :=
  Relation.ReflTransGen SessStep initSess s

theorem writerInv_reachable (s : SessState) (h : SessReachable s) : WriterInv s := by
  induction h with
  | refl => exact writerInv_init
  | tail hab hbc ih => exact writerInv_step _ _ ih hbc

/-- C9: in every reachable interleaving of a session's outbound queue, at
most one write operation is in flight at any instant; concurrent `deliver`
enqueues and the drain loop never start a second concurrent write, because
the atomic exchange-and-test on `writing_` hands the writer role to exactly
one activity at a time (`WriterInv`). -/
theorem single_writer (s : SessState) (h : SessReachable s) :
    inFlightCount s ≤ 1 := by
  have hinv := writerInv_reachable s h
  have hmono : inFlightCount s ≤ ownerCount s := by
    unfold inFlightCount ownerCount
    apply List.countP_mono_left
    intro x _ hx
    cases x <;> simp [inFlightB, ownerB] at hx ⊢
  exact le_trans hmono hinv.1

/-- C9 witness: the interleaving spawn → exchange → push → test → pop →
issue puts exactly one write in flight, and the bound holds there. -/
theorem single_writer_witness :
    SessReachable (SessState.mk true [] [TaskState.writeInFlight (Message.mk [] 0)])
    ∧ inFlightCount (SessState.mk true [] [TaskState.writeInFlight (Message.mk [] 0)]) ≤ 1 := by
  have t0 : SessReachable (SessState.mk false [] [TaskState.atExchange (Message.mk [] 0)]) :=
    Relation.ReflTransGen.tail Relation.ReflTransGen.refl
      (SessStep.spawn false [] [] (Message.mk [] 0))
  have t1 : SessReachable (SessState.mk true [] [TaskState.atPush false (Message.mk [] 0)]) :=
    Relation.ReflTransGen.tail t0 (SessStep.exchange false [] [] [] (Message.mk [] 0))
  have t2 : SessReachable (SessState.mk true [Message.mk [] 0] [TaskState.atTest false]) :=
    Relation.ReflTransGen.tail t1 (SessStep.push true [] [] [] false (Message.mk [] 0))
  have t3 : SessReachable (SessState.mk true [Message.mk [] 0] [TaskState.atDoWrite]) :=
    Relation.ReflTransGen.tail t2 (SessStep.testIdle true [Message.mk [] 0] [] [])
  have t4 : SessReachable (SessState.mk true [] [TaskState.atIssue (Message.mk [] 0)]) :=
    Relation.ReflTransGen.tail t3 (SessStep.popMsg true (Message.mk [] 0) [] [] [])
  have hr : SessReachable (SessState.mk true [] [TaskState.writeInFlight (Message.mk [] 0)]) :=
    Relation.ReflTransGen.tail t4 (SessStep.issue true [] [] [] (Message.mk [] 0))
  exact ⟨hr, single_writer _ hr⟩

end ChatSystem
